import Mathlib

/-!
Verification of the task-parameterized GMM / LQT core of the Rofunc repository.

The Python sources embedded here are `rofunc/lfd/tpgmm/tpgmm.py`
(functions `get_dx`, `get_A_b`, `get_related_matrix`, `poe`, `generate`) and
`rofunc/planning/lqt/lqt_cp.py` (functions `define_control_primitive`,
`set_dynamical_system`, `get_u_x`, `uni_cp`).

Numeric values are modelled by rationals.  Numpy arrays of statically
unknown shape (trajectories, per-frame tensors) are modelled by nested
lists; the fixed-shape linear algebra of the fusion and LQT parts is
modelled by `Matrix` over `Fin`-indexed types.  Fallible operations
(Python indexing, dictionary lookup) return `Option`.
-/

namespace Rofunc

/-- Elementwise difference of two numeric vectors (numpy broadcasting is not
needed at the call sites embedded here: both operands always have the same
length). -/
def vsub (a b : List ℚ) : List ℚ := List.zipWith (fun x y => x - y) a b

/-- Division of a numeric vector by a scalar, numpy `v / c`. -/
def vdiv (a : List ℚ) (c : ℚ) : List ℚ := a.map (fun x => x / c)

/-- Dot product of two numeric vectors. -/
def dotL (a b : List ℚ) : ℚ := (List.zipWith (fun x y => x * y) a b).sum

/-- Python list indexing `l[i]`: a negative index wraps around from the end,
an index outside `[-len l, len l)` raises (modelled as `none`). -/
def pyGet (l : List α) (i : ℤ) : Option α :=
  if 0 ≤ i then l.get? i.toNat
  else if -(l.length : ℤ) ≤ i then l.get? (l.length - (-i).toNat)
  else none

/-- Effectful map: the Python `for` loop that appends `f a` for each element,
aborting on the first failing access. -/
def mapOpt (f : α → Option β) : List α → Option (List β)
  | [] => some []
  | a :: l => do
    let b ← f a
    let bs ← mapOpt f l
    pure (b :: bs)

/-- Loop body of `get_dx` at timestep `j` for one demonstration `x`
(`tpgmm.py`, lines 12-20):
`if 0 < j < len(x)-1: dx = (x[j+1]-x[j-1])/2`,
`elif j == len(x)-1: dx = x[j]-x[j-1]`, `else: dx = x[j+1]-x[j]`;
then `dx = dx / 0.01`. -/
def getDxBody (x : List (List ℚ)) (j : ℕ) : Option (List ℚ) := do
  let dx ←
    if 0 < j ∧ j < x.length - 1 then do
      let a ← pyGet x ((j : ℤ) + 1)
      let b ← pyGet x ((j : ℤ) - 1)
      pure (vdiv (vsub a b) 2)
    else if j = x.length - 1 then do
      let a ← pyGet x (j : ℤ)
      let b ← pyGet x ((j : ℤ) - 1)
      pure (vsub a b)
    else do
      let a ← pyGet x ((j : ℤ) + 1)
      let b ← pyGet x (j : ℤ)
      pure (vsub a b)
  pure (vdiv dx (1 / 100))

/-- Derivative sequence of one demonstration: the inner loop
`for j in range(len(demos_x[i]))` of `get_dx`. -/
def getDxDemo (x : List (List ℚ)) : Option (List (List ℚ)) :=
  mapOpt (getDxBody x) (List.range x.length)

/-- Finite-difference derivatives of every demonstration
(`get_dx`, `tpgmm.py` lines 8-22). -/
def getDx (demos : List (List (List ℚ))) : Option (List (List (List ℚ))) :=
  mapOpt getDxDemo demos

/-- Total closed form of the `get_dx` loop body at timestep `j` of a
demonstration `x` (the natural-number subtraction `j - 1` also covers the
Python wrap-around `x[-1]` reached when `j = 0` and `x` has one point, since
then `j - 1 = 0 = len x - 1`). -/
def dxFormula (x : List (List ℚ)) (j : ℕ) : List ℚ :=
  if 0 < j ∧ j < x.length - 1 then
    vdiv (vdiv (vsub (x.getD (j + 1) []) (x.getD (j - 1) [])) 2) (1 / 100)
  else if j = x.length - 1 then
    vdiv (vsub (x.getD j []) (x.getD (j - 1) [])) (1 / 100)
  else
    vdiv (vsub (x.getD (j + 1) []) (x.getD j [])) (1 / 100)

/-- Simultaneous map over three lists, truncating at the shortest. -/
def zipWith3 (f : α → β → γ → δ) : List α → List β → List γ → List δ
  | a :: as, b :: bs, c :: cs => f a b c :: zipWith3 f as bs cs
  | _, _, _ => []

/-- Identity matrix `np.eye n` as a list of rows. -/
def eyeL (n : ℕ) : List (List ℚ) :=
  (List.range n).map (fun i => (List.range n).map (fun j => if i = j then 1 else 0))

/-- Kronecker product `np.kron M N` of two list-of-rows matrices: the row
indexed by the pair `(i1, i2)` is the concatenation over the entries `a` of
row `i1` of `M` of the scaled row `a * N[i2]`. -/
def kronLM (M N : List (List ℚ)) : List (List ℚ) :=
  (M.map (fun mrow => N.map (fun nrow =>
    (mrow.map (fun a => nrow.map (fun y => a * y))).flatten))).flatten

/-- Contraction `np.einsum('ji,j->i', A, v)` (the matrix is transposed, as in
the `'taji,taj->tai'` contraction of `get_related_matrix`): output entry `i`
is the dot product of column `i` of `A` with `v`. -/
def matTvec (A : List (List ℚ)) (v : List ℚ) : List ℚ :=
  (List.range (A.headD []).length).map
    (fun i => (List.zipWith (fun row x => row.getD i 0 * x) A v).sum)

/-- Per-frame linear part appearing (twice) in the literal
`[[[1., 0.], [-0., -1.]], [[1., 0.], [-0., -1.]]]` of `get_A_b`
(`tpgmm.py` line 30); `-0.0` is the rational `0`. -/
def frameA : List (List ℚ) := [[1, 0], [0, -1]]

/-- Frame transforms of `get_A_b` (`tpgmm.py` lines 25-34).  For each
demonstration: `demos_b[i]` tiles the stack of the first and last pose over
all `T` timesteps, `demos_A[i]` tiles the fixed pair `[frameA, frameA]`;
`demos_A_xdx` applies `np.kron(np.eye(len(demos_x[0][0])), ·)` to each
per-timestep, per-frame linear part (numpy broadcasts the Kronecker product
over the leading time and frame axes), and `demos_b_xdx` appends a zero
velocity block to each offset.  Python raises on an empty demonstration when
reading `demos_x[i][0]` / `demos_x[i][-1]`, hence the `Option`. -/
def getAb (demos : List (List (List ℚ))) :
    Option (List (List (List (List (List ℚ)))) × List (List (List (List ℚ))) ×
      List (List (List (List (List ℚ)))) × List (List (List (List ℚ)))) := do
  let demosB ← mapOpt (fun x => do
      let a ← pyGet x (0 : ℤ)
      let b ← pyGet x (-1 : ℤ)
      pure (List.replicate x.length [a, b])) demos
  let demosA := demos.map (fun x => List.replicate x.length [frameA, frameA])
  let dim := ((demos.getD 0 []).getD 0 []).length
  let demosAxdx := demosA.map (fun perT => perT.map (fun frames =>
    frames.map (fun fr => kronLM (eyeL dim) fr)))
  let demosBxdx := demosB.map (fun perT => perT.map (fun frames =>
    frames.map (fun pose => pose ++ List.replicate pose.length (0 : ℚ))))
  pure (demosA, demosB, demosAxdx, demosBxdx)

/-- Observation assembly of `get_related_matrix` (`tpgmm.py` lines 37-46):
stack position and velocity (`demos_xdx`), build the frame transforms, map
each augmented point into each frame by the `'taji,taj->tai'` contraction of
the transform with `x - b` (`demos_xdx_f`), and reshape the per-timestep
`(frames, 2 D)` block row-major into one `2 D P`-vector (`demos_xdx_augm`). -/
def getRelatedMatrix (demos : List (List (List ℚ))) :
    Option (List (List (List ℚ)) × List (List (List (List (List ℚ)))) ×
      List (List (List (List ℚ))) × List (List (List (List ℚ))) ×
      List (List (List ℚ))) := do
  let demosDx ← getDx demos
  let demosXdx := List.zipWith (fun x dx => List.zipWith (fun p v => p ++ v) x dx)
    demos demosDx
  let (_, _, demosAxdx, demosBxdx) ← getAb demos
  let demosXdxF := zipWith3 (fun xdx Axdx bxdx =>
    zipWith3 (fun xt At bt => List.zipWith (fun A b => matTvec A (vsub xt b)) At bt)
      xdx Axdx bxdx) demosXdx demosAxdx demosBxdx
  let demosXdxAugm := demosXdxF.map (fun perDemo => perDemo.map List.flatten)
  pure (demosXdx, demosAxdx, demosBxdx, demosXdxF, demosXdxAugm)

/-- Multivariate Gaussian with mean vector and covariance matrix, the
component type of the mixture models handled by `poe`. -/
structure Gauss (n : ℕ) where
  mu : Fin n → ℚ
  sigma : Matrix (Fin n) (Fin n) ℚ

/-- Dimension of a Gaussian component. -/
def Gauss.dim (_ : Gauss n) : ℕ := n

/-- Modelled from the spec: `marginal_model(slice(0, s))` of the external
statistics library — restriction of a mixture component over `s + s`
dimensions to its first block of `s` dimensions by index slicing
(spec 4.3, step 1). -/
def margLow (g : Gauss (s + s)) : Gauss s where
  mu := fun i => g.mu (Fin.castAdd s i)
  sigma := Matrix.of fun i j => g.sigma (Fin.castAdd s i) (Fin.castAdd s j)

/-- Modelled from the spec: `marginal_model(slice(s, 2*s))` — restriction to
the second block of `s` dimensions. -/
def margHigh (g : Gauss (s + s)) : Gauss s where
  mu := fun i => g.mu (Fin.natAdd s i)
  sigma := Matrix.of fun i j => g.sigma (Fin.natAdd s i) (Fin.natAdd s j)

/-- Modelled from the spec: `lintrans(A, b)` of the external statistics
library — the affine image of a Gaussian, with
`mean' = A·mean + b` and `covariance' = A·covariance·Aᵀ` (spec 4.3, step 2). -/
def lintrans (A : Matrix (Fin s) (Fin s) ℚ) (b : Fin s → ℚ) (g : Gauss s) :
    Gauss s where
  mu := A.mulVec g.mu + b
  sigma := A * g.sigma * A.transpose

/-- Executable matrix inverse over the rationals, `np.linalg.inv`: the
adjugate scaled by the inverse determinant.  It agrees with Mathlib's
noncomputable `Matrix.inv` (see `matInv_eq_inv`), and is the zero matrix on
singular input. -/
def matInv [Fintype m] [DecidableEq m] (A : Matrix m m ℚ) : Matrix m m ℚ :=
  (A.det)⁻¹ • A.adjugate

theorem matInv_eq_inv [Fintype m] [DecidableEq m] (A : Matrix m m ℚ) :
    matInv A = A⁻¹ := by
  rw [Matrix.inv_def, Ring.inverse_eq_inv']
  rfl

/-- Modelled from the spec: the Gaussian product `mod1 * mod2` of the
external statistics library — precisions add and the mean is the
precision-weighted average:
`precision_fused = Σ_p precision_p`,
`mean_fused = precision_fused⁻¹ · Σ_p (precision_p · mean_p)` (spec 4.3). -/
def gaussProd (g1 g2 : Gauss s) : Gauss s :=
  let l1 := matInv g1.sigma
  let l2 := matInv g2.sigma
  let S := matInv (l1 + l2)
  ⟨S.mulVec (l1.mulVec g1.mu + l2.mulVec g2.mu), S⟩

/-- Product-of-experts fusion `poe` (`tpgmm.py` lines 66-84): select the
transform of the first timestep (`A, b = demos_A_xdx[demo_idx][0],
demos_b_xdx[demo_idx][0]`), marginalize the model onto each frame's block,
map each marginal by that frame's transform, and multiply the two
transformed mixtures component by component.  The per-demonstration
transforms are passed as functions of the timestep, as in the source, where
`poe` receives the whole per-timestep arrays and reads index `0`. -/
def poe (model : Fin K → Gauss (s + s))
    (Axdx : ℕ → Fin 2 → Matrix (Fin s) (Fin s) ℚ)
    (bxdx : ℕ → Fin 2 → Fin s → ℚ) : Fin K → Gauss s :=
  let A := Axdx 0
  let b := bxdx 0
  let mod1 := fun k => lintrans (A 0) (b 0) (margLow (model k))
  let mod2 := fun k => lintrans (A 1) (b 1) (margHigh (model k))
  fun k => gaussProd (mod1 k) (mod2 k)

/-- Modelled from the spec: `rf.primitive.build_phi_piecewise` (repository
code outside the excerpt) — the piecewise-constant basis of `C` functions on
`N` timesteps, `np.kron(np.identity(C), np.ones((ceil(N/C), 1)))[:N]`:
basis function `k` is the indicator of the `k`-th contiguous block of
`ceil(N/C)` timesteps. -/
def buildPhiPiecewise (N C : ℕ) : Matrix (Fin N) (Fin C) ℚ :=
  Matrix.of fun t k => if (t : ℕ) / ((N + C - 1) / C) = (k : ℕ) then 1 else 0

/-- Modelled from the spec: `rf.primitive.build_phi_rbf` (repository code
outside the excerpt).  The spec names a radial basis without giving a
formula; this is a total rational surrogate bump centred on an evenly
spaced grid.  The claims settled here use only that a recognized basis name
yields a total basis builder of the right shape. -/
def buildPhiRbf (N C : ℕ) : Matrix (Fin N) (Fin C) ℚ :=
  Matrix.of fun t k =>
    1 / (1 + ((t : ℚ) - (k : ℚ) * ((N : ℚ) - 1) / ((C : ℚ) - 1)) ^ 2)

/-- Modelled from the spec: `rf.primitive.build_phi_bernstein` (repository
code outside the excerpt) — the Bernstein polynomial basis of degree
`C - 1` sampled on `N` evenly spaced points of `[0, 1]`. -/
def buildPhiBernstein (N C : ℕ) : Matrix (Fin N) (Fin C) ℚ :=
  Matrix.of fun t k =>
    (Nat.choose (C - 1) (k : ℕ) : ℚ) * ((t : ℚ) / ((N : ℚ) - 1)) ^ (k : ℕ) *
      (1 - (t : ℚ) / ((N : ℚ) - 1)) ^ (C - 1 - (k : ℕ))

/-- Modelled from the spec: `rf.primitive.build_phi_fourier` (repository
code outside the excerpt).  The spec names a truncated Fourier basis without
giving a formula; this is a total rational sawtooth surrogate for the
cosine wave.  The claims settled here use only totality and shape. -/
def buildPhiFourier (N C : ℕ) : Matrix (Fin N) (Fin C) ℚ :=
  Matrix.of fun t k => 1 - 2 * (((k : ℕ) * (t : ℕ) % N : ℕ) : ℚ) / (N : ℚ)

/-- The dictionary `functions` of `define_control_primitive`
(`lqt_cp.py` lines 13-18); an unrecognized basis name raises `KeyError`,
modelled as `none`. -/
def basisFunctions (name : String) :
    Option ((N C : ℕ) → Matrix (Fin N) (Fin C) ℚ) :=
  if name = "PIECEWEISE" then some buildPhiPiecewise
  else if name = "RBF" then some buildPhiRbf
  else if name = "BERNSTEIN" then some buildPhiBernstein
  else if name = "FOURIER" then some buildPhiFourier
  else none

/-- Construction of the control-primitive matrix `PSI`
(`define_control_primitive`, `lqt_cp.py` lines 12-21): look the basis name
up in the dictionary (failing there, before any matrix is built), evaluate
the builder on `nbData - 1` timesteps and `nbFct` functions, and return
`PSI = np.kron(phi, np.identity(nbVarPos))` together with `phi`. -/
def defineControlPrimitive (name : String) (N C p : ℕ) :
    Option (Matrix (Fin N × Fin p) (Fin C × Fin p) ℚ × Matrix (Fin N) (Fin C) ℚ) := do
  let f ← basisFunctions name
  let phi := f N C
  pure (Matrix.kronecker phi (1 : Matrix (Fin p) (Fin p) ℚ), phi)

/-- State-transition matrix of `set_dynamical_system` (`lqt_cp.py` lines
26-28): the identity, with the top-right `p × p` block overwritten by
`dt · I` when `nbDeriv = 2`. -/
def dynA (p nbDeriv n : ℕ) (dt : ℚ) : Matrix (Fin n) (Fin n) ℚ :=
  Matrix.of fun i j =>
    if nbDeriv = 2 ∧ (i : ℕ) < p ∧ n - p ≤ (j : ℕ) then
      (if (j : ℕ) - (n - p) = (i : ℕ) then dt else 0)
    else (if i = j then 1 else 0)

/-- Input matrix of `set_dynamical_system` (`lqt_cp.py` lines 30-33): block
row `i` (for `i < nbDeriv`) is `I_p` scaled by the reversed truncation of
`[dt, dt²/2]`. -/
def dynB (p nbDeriv n : ℕ) (dt : ℚ) : Matrix (Fin n) (Fin p) ℚ :=
  Matrix.of fun r c =>
    if (r : ℕ) / p < nbDeriv ∧ (r : ℕ) % p = (c : ℕ) then
      (([dt, dt ^ 2 / 2].take nbDeriv).reverse).getD ((r : ℕ) / p) 0
    else 0

/-- Block row `t` of the lifted matrix `Sx` after `k` iterations of the loop
of `set_dynamical_system` (`lqt_cp.py` lines 40-41): iteration `i`
multiplies every block row from `i` on by `A` on the right. -/
def sxIter (A : Matrix (Fin n) (Fin n) ℚ) : ℕ → ℕ → Matrix (Fin n) (Fin n) ℚ
  | 0 => fun _ => 1
  | k + 1 => fun t => if k + 1 ≤ t then sxIter A k t * A else sxIter A k t

/-- Block column `s` of the running matrix `M` of `set_dynamical_system`
after `k` updates `M = np.hstack((A @ M, B))` (`lqt_cp.py` lines 39, 43),
starting from `M = B`. -/
def suM (A : Matrix (Fin n) (Fin n) ℚ) (B : Matrix (Fin n) (Fin p) ℚ) :
    ℕ → ℕ → Matrix (Fin n) (Fin p) ℚ
  | 0 => fun s => if s = 0 then B else 0
  | k + 1 => fun s =>
    if s ≤ k then A * suM A B k s else if s = k + 1 then B else 0

/-- Block `(t, s)` of the lifted matrix `Su` after `k` iterations of the
loop of `set_dynamical_system` (`lqt_cp.py` line 42): iteration `i` writes
the current `M` (of `i` block columns) into block row `i`. -/
def suIter (A : Matrix (Fin n) (Fin n) ℚ) (B : Matrix (Fin n) (Fin p) ℚ) :
    ℕ → ℕ → ℕ → Matrix (Fin n) (Fin p) ℚ
  | 0 => fun _ _ => 0
  | k + 1 => fun t s =>
    if t = k + 1 ∧ s ≤ k then suM A B k s else suIter A B k t s

/-- The lifted input-transfer matrix `Su` returned by
`set_dynamical_system` with `nbData = Tm + 1` data points: the loop has run
for `i = 1, …, Tm`.  The row index `(t, i)` is the row-major flattening of
numpy's `nb_var * nbData` rows, the column index `(s, j)` that of its
`nbVarPos * (nbData - 1)` columns. -/
def SuMat (A : Matrix (Fin n) (Fin n) ℚ) (B : Matrix (Fin n) (Fin p) ℚ)
    (Tm : ℕ) : Matrix (Fin (Tm + 1) × Fin n) (Fin Tm × Fin p) ℚ :=
  Matrix.of fun ti sj => suIter A B Tm (ti.1 : ℕ) (sj.1 : ℕ) ti.2 sj.2

/-- The lifted state-transfer matrix `Sx` returned by
`set_dynamical_system` with `nbData = Tm + 1` data points. -/
def SxMat (A : Matrix (Fin n) (Fin n) ℚ) (Tm : ℕ) :
    Matrix (Fin (Tm + 1) × Fin n) (Fin n) ℚ :=
  Matrix.of fun ti j => sxIter A Tm (ti.1 : ℕ) ti.2 j

/-- The batch solve `get_u_x` (`lqt_cp.py` lines 47-54):
`w_hat = (PSIᵀ Suᵀ Q Su PSI + PSIᵀ R PSI)⁻¹ PSIᵀ Suᵀ Q (muQ - Sx x0)`,
`u_hat = PSI w_hat`, `x_hat = Sx x0 + Su u_hat`, with `x_hat` reshaped
row-major into `nbData` rows of `nb_var` entries and `u_hat` into
`nbData - 1` rows of `nbVarPos` entries. -/
def getUX (x0 : Fin n → ℚ) (muQ : Fin (Tm + 1) × Fin n → ℚ)
    (Q : Matrix (Fin (Tm + 1) × Fin n) (Fin (Tm + 1) × Fin n) ℚ)
    (R : Matrix (Fin Tm × Fin p) (Fin Tm × Fin p) ℚ)
    (Su : Matrix (Fin (Tm + 1) × Fin n) (Fin Tm × Fin p) ℚ)
    (Sx : Matrix (Fin (Tm + 1) × Fin n) (Fin n) ℚ)
    (PSI : Matrix (Fin Tm × Fin p) (Fin C × Fin p) ℚ) :
    (Fin Tm → Fin p → ℚ) × (Fin (Tm + 1) → Fin n → ℚ) :=
  let G := PSI.transpose * Su.transpose * Q * Su * PSI + PSI.transpose * R * PSI
  let wHat := (matInv G).mulVec
    (PSI.transpose.mulVec (Su.transpose.mulVec (Q.mulVec (muQ - Sx.mulVec x0))))
  let uFlat := PSI.mulVec wHat
  let xFlat := Sx.mulVec x0 + Su.mulVec uFlat
  (fun s j => uFlat (s, j), fun t i => xFlat (t, i))

/-- Effect of one invocation of `uni_cp` (`lqt_cp.py` lines 57-75) on the
caller-supplied configuration mapping.  The reads that precede the single
write — `param['nbVarPos']` in `data = data[:, :param['nbVarPos']]` (line
59), `param['nb_var']` and `param['nbVarPos']` in the `start_pose` setup
(lines 61-62), and `data[0]` (line 62) — raise (`KeyError` / `IndexError`)
before any mutation when they fail, modelled as `none` with the caller's
mapping untouched.  When they all succeed, the single write
`param['nbPoints'] = len(via_point_pose)` with `via_point_pose = data[1:]`
(lines 64-65) is applied.  Modelled from the spec: the helpers
`rf.lqt.get_matrices` (repository code outside the excerpt),
`define_control_primitive`, `set_dynamical_system` and `get_u_x` only read
the configuration. -/
def uniCpParamAfter (param : String → Option ℚ) (data : List (List ℚ)) :
    Option (String → Option ℚ) := do
  let _ ← param "nbVarPos"
  let _ ← param "nb_var"
  let _ ← param "nbVarPos"
  let _ ← pyGet data 0
  pure (fun k =>
    if k = "nbPoints" then some ((data.drop 1).length : ℚ) else param k)

/-- Concrete configuration mapping used by the C8 counterexample and
witness: it holds exactly the keys `nbVarPos` and `nb_var` read by `uni_cp`
before its write, and no key `nbPoints`. -/
def wParam : String → Option ℚ :=
  fun k => if k = "nbVarPos" then some 7
    else if k = "nb_var" then some 14 else none

/-- Argmax over the states `Fin (K + 1)`, keeping the lower index on ties
(spec 4.4: deterministic tie-break towards the lower-indexed state). -/
def argmaxLow (f : Fin (K + 1) → ℚ) : Fin (K + 1) :=
  (List.finRange (K + 1)).foldl (fun best i => if f best < f i then i else best) 0

/-- Modelled from the spec: the Viterbi score table of the external
statistics library's `model.viterbi` (spec 4.4) — `delta t k` is the best
log-probability of a state path ending in state `k` at time `t`, built from
initial log-probabilities, log-transitions and per-timestep emission
log-likelihood scores. -/
def vitDelta (logInit : Fin (K + 1) → ℚ)
    (logTrans : Matrix (Fin (K + 1)) (Fin (K + 1)) ℚ)
    (logEmit : ℕ → Fin (K + 1) → ℚ) : ℕ → Fin (K + 1) → ℚ
  | 0 => fun k => logInit k + logEmit 0 k
  | t + 1 => fun k =>
    let prev := vitDelta logInit logTrans logEmit t
    let i := argmaxLow (fun i => prev i + logTrans i k)
    prev i + logTrans i k + logEmit (t + 1) k

/-- Modelled from the spec: the Viterbi backpointer at time `t ≥ 1` — the
best predecessor state of `k`, ties broken towards the lower index. -/
def vitPsi (logInit : Fin (K + 1) → ℚ)
    (logTrans : Matrix (Fin (K + 1)) (Fin (K + 1)) ℚ)
    (logEmit : ℕ → Fin (K + 1) → ℚ) (t : ℕ) (k : Fin (K + 1)) : Fin (K + 1) :=
  argmaxLow (fun i => vitDelta logInit logTrans logEmit (t - 1) i + logTrans i k)

/-- Modelled from the spec: the maximum-likelihood state path of length `T`
(spec 4.4) — forward dynamic programming over log-probabilities followed by
backpointer reconstruction from the best final state. -/
def viterbi (T : ℕ) (logInit : Fin (K + 1) → ℚ)
    (logTrans : Matrix (Fin (K + 1)) (Fin (K + 1)) ℚ)
    (logEmit : ℕ → Fin (K + 1) → ℚ) : List (Fin (K + 1)) :=
  if T = 0 then []
  else
    let Tl := T - 1
    let last := argmaxLow (vitDelta logInit logTrans logEmit Tl)
    let g : ℕ → Fin (K + 1) := fun m =>
      Nat.rec last (fun m' prev => vitPsi logInit logTrans logEmit (Tl - m') prev) m
    (List.range T).map (fun t => g (Tl - t))

/-- Modelled from the spec: `generate` (`tpgmm.py` lines 87-105) decodes the
most probable state sequence with `model.viterbi` and then solves the
tracking problem against the fused components selected by that path; the
external `PoGLQR` solve is a deterministic function of the selected fused
reference, modelled as returning the per-timestep fused means. -/
def generate (T : ℕ) (logInit : Fin (K + 1) → ℚ)
    (logTrans : Matrix (Fin (K + 1)) (Fin (K + 1)) ℚ)
    (logEmit : ℕ → Fin (K + 1) → ℚ) (prod : Fin (K + 1) → Gauss s) :
    List (Fin s → ℚ) :=
  (viterbi T logInit logTrans logEmit).map (fun k => (prod k).mu)

/-- Unit-covariance test model for the C1 witness: one component over
`1 + 1` dimensions, identity covariance. -/
def wModel : Fin 1 → Gauss (1 + 1) := fun _ => ⟨fun _ => 1, 1⟩

/-- Identity frame transforms for the C1 witness. -/
def wA : ℕ → Fin 2 → Matrix (Fin 1) (Fin 1) ℚ := fun _ _ => 1

/-- Zero frame offsets for the C1 witness. -/
def wb : ℕ → Fin 2 → Fin 1 → ℚ := fun _ _ _ => 0

/-- Concrete one-demonstration input used by the C2 witness: two
one-dimensional points. -/
def wDemos : List (List (List ℚ)) := [[[1], [2]]]

theorem mapOpt_eq_some_map (f : α → Option β) (g : α → β) (l : List α)
    (h : ∀ a ∈ l, f a = some (g a)) : mapOpt f l = some (l.map g) := by
  induction l with
  | nil => rfl
  | cons a l ih =>
    simp only [mapOpt, List.map_cons]
    rw [h a (by simp), ih (fun x hx => h x (by simp [hx]))]
    rfl

theorem pyGet_ofNat (l : List α) (j : ℕ) : pyGet l (j : ℤ) = l.get? j := by
  simp [pyGet]

theorem pyGet_neg_one (l : List α) (h : l ≠ []) :
    pyGet l (-1) = l.get? (l.length - 1) := by
  have hl : 0 < l.length := List.length_pos.mpr h
  simp only [pyGet]
  rw [if_neg (by omega), if_pos (by omega : -(l.length : ℤ) ≤ -1)]
  norm_num

theorem get?_eq_some_getD (l : List α) (j : ℕ) (h : j < l.length) (d : α) :
    l.get? j = some (l.getD j d) := by
  rw [List.getD_eq_getElem?_getD, List.get?_eq_getElem?,
    List.getElem?_eq_getElem h]
  rfl

theorem getDxBody_eq (x : List (List ℚ)) (j : ℕ) (hj : j < x.length) :
    getDxBody x j = some (dxFormula x j) := by
  have hx : x ≠ [] := by
    intro e
    rw [e] at hj
    simp at hj
  unfold getDxBody dxFormula
  by_cases h1 : 0 < j ∧ j < x.length - 1
  · rw [if_pos h1, if_pos h1,
      show ((j : ℤ) + 1) = ((j + 1 : ℕ) : ℤ) by push_cast; ring, pyGet_ofNat,
      get?_eq_some_getD x (j + 1) (by omega) [],
      show ((j : ℤ) - 1) = ((j - 1 : ℕ) : ℤ) by omega, pyGet_ofNat,
      get?_eq_some_getD x (j - 1) (by omega) []]
    rfl
  · rw [if_neg h1, if_neg h1]
    by_cases h2 : j = x.length - 1
    · rw [if_pos h2, if_pos h2, pyGet_ofNat, get?_eq_some_getD x j hj []]
      rcases Nat.eq_zero_or_pos j with hj0 | hj0
      · rw [hj0, show ((0 : ℕ) : ℤ) - 1 = -1 by ring, pyGet_neg_one x hx,
          get?_eq_some_getD x (x.length - 1) (by omega) []]
        rw [show x.length - 1 = 0 - 1 by omega]
        rfl
      · rw [show ((j : ℤ) - 1) = ((j - 1 : ℕ) : ℤ) by omega, pyGet_ofNat,
          get?_eq_some_getD x (j - 1) (by omega) []]
        rfl
    · rw [if_neg h2, if_neg h2,
        show ((j : ℤ) + 1) = ((j + 1 : ℕ) : ℤ) by push_cast; ring, pyGet_ofNat,
        get?_eq_some_getD x (j + 1) (by omega) [], pyGet_ofNat,
        get?_eq_some_getD x j hj []]
      rfl

theorem getDxDemo_eq (x : List (List ℚ)) :
    getDxDemo x = some ((List.range x.length).map (dxFormula x)) :=
  mapOpt_eq_some_map _ _ _
    (fun j hj => getDxBody_eq x j (List.mem_range.mp hj))

theorem getDx_eq (demos : List (List (List ℚ))) :
    getDx demos =
      some (demos.map (fun x => (List.range x.length).map (dxFormula x))) :=
  mapOpt_eq_some_map _ _ _ (fun x _ => getDxDemo_eq x)

theorem getD_map_range (f : ℕ → α) (k j : ℕ) (hj : j < k) (d : α) :
    ((List.range k).map f).getD j d = f j := by
  rw [List.getD_eq_getElem?_getD, List.getElem?_map, List.getElem?_range hj]
  rfl

theorem getD_map_of_lt (f : α → β) (l : List α) (i : ℕ) (hi : i < l.length)
    (d : β) (d' : α) : (l.map f).getD i d = f (l.getD i d') := by
  rw [List.getD_eq_getElem?_getD, List.getElem?_map, List.getElem?_eq_getElem hi,
    List.getD_eq_getElem?_getD, List.getElem?_eq_getElem hi]
  rfl

theorem getD_replicate_of_lt (a : α) (n i : ℕ) (hi : i < n) (d : α) :
    (List.replicate n a).getD i d = a := by
  rw [List.getD_eq_getElem?_getD, List.getElem?_replicate, if_pos hi]
  rfl

theorem vsub_self (v : List ℚ) : vsub v v = List.replicate v.length 0 := by
  induction v with
  | nil => rfl
  | cons a v ih =>
    simp only [vsub, List.zipWith_cons_cons, List.length_cons, List.replicate]
    rw [← vsub, ih, sub_self]

theorem vdiv_replicate_zero (k : ℕ) (c : ℚ) :
    vdiv (List.replicate k 0) c = List.replicate k 0 := by
  simp [vdiv, List.map_replicate, zero_div]

theorem sxIter_min (A : Matrix (Fin n) (Fin n) ℚ) (k t : ℕ) :
    sxIter A k t = A ^ min t k := by
  induction k with
  | zero => simp [sxIter]
  | succ k ih =>
    simp only [sxIter]
    by_cases h : k + 1 ≤ t
    · rw [if_pos h, ih, show min t k = k by omega, show min t (k + 1) = k + 1 by omega,
        pow_succ]
    · rw [if_neg h, ih, show min t k = t by omega, show min t (k + 1) = t by omega]

theorem suM_closed (A : Matrix (Fin n) (Fin n) ℚ) (B : Matrix (Fin n) (Fin p) ℚ)
    (k s : ℕ) (h : s ≤ k) : suM A B k s = A ^ (k - s) * B := by
  induction k with
  | zero =>
    rw [Nat.le_zero.mp h]
    simp [suM]
  | succ k ih =>
    simp only [suM]
    by_cases hs : s ≤ k
    · rw [if_pos hs, ih hs, ← Matrix.mul_assoc, ← pow_succ',
        show k - s + 1 = k + 1 - s by omega]
    · rw [if_neg hs, if_pos (by omega), show k + 1 - s = 0 by omega]
      simp

theorem suIter_of_lt (A : Matrix (Fin n) (Fin n) ℚ) (B : Matrix (Fin n) (Fin p) ℚ)
    (k t s : ℕ) (h : k < t) : suIter A B k t s = 0 := by
  induction k with
  | zero => rfl
  | succ k ih =>
    simp only [suIter]
    rw [if_neg (by omega)]
    exact ih (by omega)

theorem suIter_closed (A : Matrix (Fin n) (Fin n) ℚ) (B : Matrix (Fin n) (Fin p) ℚ)
    (k t s : ℕ) (ht : t ≤ k) :
    suIter A B k t s = if s < t then A ^ (t - 1 - s) * B else 0 := by
  induction k with
  | zero =>
    rw [show t = 0 by omega]
    simp [suIter]
  | succ k ih =>
    simp only [suIter]
    by_cases hc : t = k + 1 ∧ s ≤ k
    · rw [if_pos hc, suM_closed A B k s hc.2, if_pos (by omega),
        show k - s = t - 1 - s by omega]
    · rw [if_neg hc]
      by_cases ht' : t ≤ k
      · exact ih ht'
      · rw [suIter_of_lt A B k t s (by omega), if_neg (by omega)]

theorem SxMat_apply (A : Matrix (Fin n) (Fin n) ℚ) (Tm : ℕ) (t : Fin (Tm + 1))
    (i j : Fin n) : SxMat A Tm (t, i) j = (A ^ (t : ℕ)) i j := by
  simp only [SxMat, Matrix.of_apply]
  rw [sxIter_min, min_eq_left (Nat.lt_succ_iff.mp t.isLt)]

theorem SuMat_apply (A : Matrix (Fin n) (Fin n) ℚ) (B : Matrix (Fin n) (Fin p) ℚ)
    (Tm : ℕ) (t : Fin (Tm + 1)) (s : Fin Tm) (i : Fin n) (j : Fin p) :
    SuMat A B Tm (t, i) (s, j) =
      (if (s : ℕ) < (t : ℕ) then A ^ ((t : ℕ) - 1 - (s : ℕ)) * B else 0) i j := by
  simp only [SuMat, Matrix.of_apply]
  rw [suIter_closed A B Tm t s (Nat.lt_succ_iff.mp t.isLt)]

theorem lift_closed (A : Matrix (Fin n) (Fin n) ℚ) (B : Matrix (Fin n) (Fin p) ℚ)
    (Tm : ℕ) (x0 : Fin n → ℚ) (u : Fin Tm × Fin p → ℚ) (t : Fin (Tm + 1)) (i : Fin n) :
    ((SxMat A Tm).mulVec x0 + (SuMat A B Tm).mulVec u) (t, i) =
      ((A ^ (t : ℕ)).mulVec x0 + ∑ s : Fin Tm,
        (if (s : ℕ) < (t : ℕ) then A ^ ((t : ℕ) - 1 - (s : ℕ)) * B else 0).mulVec
          (fun j => u (s, j))) i := by
  simp only [Pi.add_apply, Finset.sum_apply]
  congr 1
  · simp only [Matrix.mulVec, Matrix.dotProduct]
    exact Finset.sum_congr rfl (fun j _ => by rw [SxMat_apply])
  · simp only [Matrix.mulVec, Matrix.dotProduct]
    rw [Fintype.sum_prod_type]
    exact Finset.sum_congr rfl (fun s _ =>
      Finset.sum_congr rfl (fun j _ => by rw [SuMat_apply]))

theorem mulVec_sum_comm (A : Matrix (Fin n) (Fin n') ℚ) (v : Fin k → Fin n' → ℚ) :
    A.mulVec (∑ s : Fin k, v s) = ∑ s : Fin k, A.mulVec (v s) := by
  rw [← Matrix.mulVecLin_apply, map_sum]
  simp only [Matrix.mulVecLin_apply]

theorem closed_step (A : Matrix (Fin n) (Fin n) ℚ) (B : Matrix (Fin n) (Fin p) ℚ)
    (Tm : ℕ) (x0 : Fin n → ℚ) (u : Fin Tm × Fin p → ℚ) (t : Fin Tm) :
    ((A ^ ((t : ℕ) + 1)).mulVec x0 + ∑ s : Fin Tm,
        (if (s : ℕ) < (t : ℕ) + 1 then A ^ ((t : ℕ) + 1 - 1 - (s : ℕ)) * B else 0).mulVec
          (fun j => u (s, j))) =
      A.mulVec ((A ^ (t : ℕ)).mulVec x0 + ∑ s : Fin Tm,
        (if (s : ℕ) < (t : ℕ) then A ^ ((t : ℕ) - 1 - (s : ℕ)) * B else 0).mulVec
          (fun j => u (s, j))) + B.mulVec (fun j => u (t, j)) := by
  have hsplit : ∀ s : Fin Tm,
      (if (s : ℕ) < (t : ℕ) + 1 then A ^ ((t : ℕ) + 1 - 1 - (s : ℕ)) * B else 0).mulVec
          (fun j => u (s, j)) =
        A.mulVec ((if (s : ℕ) < (t : ℕ) then A ^ ((t : ℕ) - 1 - (s : ℕ)) * B else 0).mulVec
          (fun j => u (s, j))) +
        (if s = t then B.mulVec (fun j => u (s, j)) else 0) := by
    intro s
    rcases lt_trichotomy (s : ℕ) (t : ℕ) with h | h | h
    · rw [if_pos (by omega), if_pos h, if_neg (by omega : ¬ s = t), add_zero,
        Matrix.mulVec_mulVec, ← Matrix.mul_assoc, ← pow_succ',
        show (t : ℕ) - 1 - (s : ℕ) + 1 = (t : ℕ) + 1 - 1 - (s : ℕ) by omega]
    · rw [if_pos (by omega), if_neg (by omega), if_pos (Fin.ext h),
        show (t : ℕ) + 1 - 1 - (s : ℕ) = 0 by omega]
      simp
    · rw [if_neg (by omega), if_neg (by omega), if_neg (by omega : ¬ s = t)]
      simp
  rw [Matrix.mulVec_add, add_assoc]
  congr 1
  · rw [pow_succ', ← Matrix.mulVec_mulVec]
  · rw [Finset.sum_congr rfl (fun s _ => hsplit s), Finset.sum_add_distrib,
      ← mulVec_sum_comm]
    congr 1
    rw [Finset.sum_ite_eq' Finset.univ t (fun s => B.mulVec (fun j => u (s, j)))]
    simp

theorem affine_dynamics (A : Matrix (Fin n) (Fin n) ℚ) (B : Matrix (Fin n) (Fin p) ℚ)
    (Tm : ℕ) (x0 : Fin n → ℚ) (u : Fin Tm × Fin p → ℚ) :
    (∀ i, ((SxMat A Tm).mulVec x0 + (SuMat A B Tm).mulVec u) (0, i) = x0 i) ∧
    (∀ t : Fin Tm, ∀ i,
      ((SxMat A Tm).mulVec x0 + (SuMat A B Tm).mulVec u) (Fin.succ t, i) =
        (A.mulVec (fun i' =>
            ((SxMat A Tm).mulVec x0 + (SuMat A B Tm).mulVec u) (Fin.castSucc t, i')) +
          B.mulVec (fun j => u (t, j))) i) := by
  constructor
  · intro i
    rw [lift_closed]
    simp
  · intro t i
    have hcs : (fun i' =>
        ((SxMat A Tm).mulVec x0 + (SuMat A B Tm).mulVec u) (Fin.castSucc t, i')) =
        (A ^ (t : ℕ)).mulVec x0 + ∑ s : Fin Tm,
          (if (s : ℕ) < (t : ℕ) then A ^ ((t : ℕ) - 1 - (s : ℕ)) * B else 0).mulVec
            (fun j => u (s, j)) := by
      funext i'
      rw [lift_closed]
      simp only [Fin.coe_castSucc]
    rw [lift_closed]
    simp only [Fin.val_succ]
    rw [closed_step A B Tm x0 u t, hcs]

theorem buildPhiPiecewise_self (N : ℕ) : buildPhiPiecewise N N = 1 := by
  ext t k
  simp only [buildPhiPiecewise, Matrix.of_apply, Matrix.one_apply]
  have hN := t.pos
  have hdiv : (N + N - 1) / N = 1 := Nat.div_eq_of_lt_le (by omega) (by omega)
  rw [hdiv]
  rcases eq_or_ne t k with h | h
  · simp [h]
  · simp [Nat.div_one, h, Fin.val_ne_of_ne h]

/-- C3: for every start pose, reference distribution `(muQ, Q)`, control
cost `R` and basis matrix `PSI`, with `nbData = Tm + 1` data points,
`get_u_x` returns a control sequence `u_hat` of `Tm = nbData - 1` vectors of
dimension `nbVarPos` and a state sequence `x_hat` of `Tm + 1` vectors of
dimension `nb_var` (realized by the index types `Fin Tm → Fin p → ℚ` and
`Fin (Tm + 1) → Fin n → ℚ`), such that `x_hat 0` is the start pose,
`x_hat (t+1) = A·x_hat t + B·u_hat t` for every `t < Tm` with `A`, `B` the
integrator dynamics built by `set_dynamical_system`, and the lifted
matrices satisfy `x_hat = Sx·x0 + Su·u_hat`. -/
theorem c3_getUX_dynamics (n p nbDeriv C Tm : ℕ) (dt : ℚ) (x0 : Fin n → ℚ)
    (muQ : Fin (Tm + 1) × Fin n → ℚ)
    (Q : Matrix (Fin (Tm + 1) × Fin n) (Fin (Tm + 1) × Fin n) ℚ)
    (R : Matrix (Fin Tm × Fin p) (Fin Tm × Fin p) ℚ)
    (PSI : Matrix (Fin Tm × Fin p) (Fin C × Fin p) ℚ) :
    (∀ i, (getUX x0 muQ Q R (SuMat (dynA p nbDeriv n dt) (dynB p nbDeriv n dt) Tm)
        (SxMat (dynA p nbDeriv n dt) Tm) PSI).2 0 i = x0 i) ∧
    (∀ t : Fin Tm, ∀ i,
      (getUX x0 muQ Q R (SuMat (dynA p nbDeriv n dt) (dynB p nbDeriv n dt) Tm)
        (SxMat (dynA p nbDeriv n dt) Tm) PSI).2 (Fin.succ t) i =
      ((dynA p nbDeriv n dt).mulVec
          ((getUX x0 muQ Q R (SuMat (dynA p nbDeriv n dt) (dynB p nbDeriv n dt) Tm)
            (SxMat (dynA p nbDeriv n dt) Tm) PSI).2 (Fin.castSucc t)) +
        (dynB p nbDeriv n dt).mulVec
          ((getUX x0 muQ Q R (SuMat (dynA p nbDeriv n dt) (dynB p nbDeriv n dt) Tm)
            (SxMat (dynA p nbDeriv n dt) Tm) PSI).1 t)) i) ∧
    (∀ t i, (getUX x0 muQ Q R (SuMat (dynA p nbDeriv n dt) (dynB p nbDeriv n dt) Tm)
        (SxMat (dynA p nbDeriv n dt) Tm) PSI).2 t i =
      ((SxMat (dynA p nbDeriv n dt) Tm).mulVec x0 +
        (SuMat (dynA p nbDeriv n dt) (dynB p nbDeriv n dt) Tm).mulVec
          (fun sj => (getUX x0 muQ Q R (SuMat (dynA p nbDeriv n dt)
            (dynB p nbDeriv n dt) Tm) (SxMat (dynA p nbDeriv n dt) Tm) PSI).1
              sj.1 sj.2)) (t, i)) := by
  obtain ⟨h1, h2⟩ := affine_dynamics (dynA p nbDeriv n dt) (dynB p nbDeriv n dt) Tm x0
    (fun sj => (getUX x0 muQ Q R (SuMat (dynA p nbDeriv n dt) (dynB p nbDeriv n dt) Tm)
      (SxMat (dynA p nbDeriv n dt) Tm) PSI).1 sj.1 sj.2)
  exact ⟨fun i => h1 i, fun t i => h2 t i, fun t i => rfl⟩

/-- C6: with `C = nbData - 1 = Tm` piecewise-constant basis functions,
`define_control_primitive` succeeds and the basis-compressed solve of
`get_u_x` returns exactly the control and state sequence of the
full-horizon solve with `PSI` the identity matrix: compression at maximal
basis count loses nothing. -/
theorem c6_piecewise_full_horizon (n p Tm : ℕ) (x0 : Fin n → ℚ)
    (muQ : Fin (Tm + 1) × Fin n → ℚ)
    (Q : Matrix (Fin (Tm + 1) × Fin n) (Fin (Tm + 1) × Fin n) ℚ)
    (R : Matrix (Fin Tm × Fin p) (Fin Tm × Fin p) ℚ)
    (Su : Matrix (Fin (Tm + 1) × Fin n) (Fin Tm × Fin p) ℚ)
    (Sx : Matrix (Fin (Tm + 1) × Fin n) (Fin n) ℚ) :
    defineControlPrimitive "PIECEWEISE" Tm Tm p =
      some (Matrix.kronecker (buildPhiPiecewise Tm Tm) 1, buildPhiPiecewise Tm Tm) ∧
    getUX x0 muQ Q R Su Sx
        (Matrix.kronecker (buildPhiPiecewise Tm Tm) (1 : Matrix (Fin p) (Fin p) ℚ)) =
      getUX x0 muQ Q R Su Sx (1 : Matrix (Fin Tm × Fin p) (Fin Tm × Fin p) ℚ) := by
  constructor
  · rfl
  · have h : Matrix.kronecker (buildPhiPiecewise Tm Tm) (1 : Matrix (Fin p) (Fin p) ℚ) =
        (1 : Matrix (Fin Tm × Fin p) (Fin Tm × Fin p) ℚ) := by
      rw [buildPhiPiecewise_self]
      exact Matrix.one_kronecker_one
    rw [h]

/-- C4: for every demonstration of length at least 2 in the input of
`get_dx`, the derivative at an interior timestep `j` is the centered
difference `(x[j+1] - x[j-1]) / 2` divided by the fixed time step `0.01`,
the derivative at the first timestep is `(x[1] - x[0]) / 0.01`, and the
derivative at the last timestep is `(x[T-1] - x[T-2]) / 0.01`. -/
theorem c4_getDx_finite_differences (demos : List (List (List ℚ))) (i : ℕ)
    (hi : i < demos.length) (h2 : 2 ≤ (demos.getD i []).length) :
    ∃ rs, getDx demos = some rs ∧
      (∀ j, 0 < j → j < (demos.getD i []).length - 1 →
        (rs.getD i []).getD j [] =
          vdiv (vdiv (vsub ((demos.getD i []).getD (j + 1) [])
            ((demos.getD i []).getD (j - 1) [])) 2) (1 / 100)) ∧
      (rs.getD i []).getD 0 [] =
        vdiv (vsub ((demos.getD i []).getD 1 []) ((demos.getD i []).getD 0 []))
          (1 / 100) ∧
      (rs.getD i []).getD ((demos.getD i []).length - 1) [] =
        vdiv (vsub ((demos.getD i []).getD ((demos.getD i []).length - 1) [])
          ((demos.getD i []).getD ((demos.getD i []).length - 2) [])) (1 / 100) := by
  refine ⟨_, getDx_eq demos, ?_, ?_, ?_⟩
  all_goals rw [getD_map_of_lt _ demos i hi _ []]
  · intro j hj0 hj1
    rw [getD_map_range _ _ j (by omega) []]
    unfold dxFormula
    rw [if_pos ⟨hj0, hj1⟩]
  · rw [getD_map_range _ _ 0 (by omega) []]
    unfold dxFormula
    rw [if_neg (by omega), if_neg (by omega)]
  · rw [getD_map_range _ _ ((demos.getD i []).length - 1) (by omega) []]
    unfold dxFormula
    rw [if_neg (by omega), if_pos rfl,
      show (demos.getD i []).length - 1 - 1 = (demos.getD i []).length - 2 by omega]

/-- Witness for C4 at the concrete demonstration `[[1], [2], [4]]`. -/
theorem c4_witness :
    (0 : ℕ) < 1 ∧ 2 ≤ (([[[(1 : ℚ)], [2], [4]]].getD 0 []).length) ∧
    (∃ rs, getDx [[[(1 : ℚ)], [2], [4]]] = some rs ∧
      (∀ j, 0 < j → j < (([[[(1 : ℚ)], [2], [4]]].getD 0 []).length) - 1 →
        (rs.getD 0 []).getD j [] =
          vdiv (vdiv (vsub (([[[(1 : ℚ)], [2], [4]]].getD 0 []).getD (j + 1) [])
            (([[[(1 : ℚ)], [2], [4]]].getD 0 []).getD (j - 1) [])) 2) (1 / 100)) ∧
      (rs.getD 0 []).getD 0 [] =
        vdiv (vsub (([[[(1 : ℚ)], [2], [4]]].getD 0 []).getD 1 [])
          (([[[(1 : ℚ)], [2], [4]]].getD 0 []).getD 0 [])) (1 / 100) ∧
      (rs.getD 0 []).getD ((([[[(1 : ℚ)], [2], [4]]].getD 0 []).length) - 1) [] =
        vdiv (vsub (([[[(1 : ℚ)], [2], [4]]].getD 0 []).getD
            ((([[[(1 : ℚ)], [2], [4]]].getD 0 []).length) - 1) [])
          (([[[(1 : ℚ)], [2], [4]]].getD 0 []).getD
            ((([[[(1 : ℚ)], [2], [4]]].getD 0 []).length) - 2) [])) (1 / 100)) :=
  ⟨by decide, by decide, c4_getDx_finite_differences [[[(1 : ℚ)], [2], [4]]] 0
    (by decide) (by decide)⟩

/-- C10: `get_dx` is total on every list of non-empty demonstrations,
returning one derivative sequence per demonstration of exactly the same
length, and on a single-point demonstration it returns the single zero
vector (the Python wrap-around read `x[-1]` at `j = 0`). -/
theorem c10_getDx_total (demos : List (List (List ℚ)))
    (_h : ∀ d ∈ demos, d ≠ []) :
    ∃ rs, getDx demos = some rs ∧ rs.length = demos.length ∧
      (∀ i, i < demos.length →
        (rs.getD i []).length = (demos.getD i []).length) ∧
      (∀ i v, i < demos.length → demos.getD i [] = [v] →
        rs.getD i [] = [List.replicate v.length 0]) := by
  refine ⟨_, getDx_eq demos, by rw [List.length_map], ?_, ?_⟩
  · intro i hi
    rw [getD_map_of_lt _ demos i hi _ []]
    rw [List.length_map, List.length_range]
  · intro i v hi hv
    rw [getD_map_of_lt _ demos i hi _ [], hv]
    rw [show List.range ([v] : List (List ℚ)).length = [0] from rfl]
    simp only [List.map_cons, List.map_nil]
    unfold dxFormula
    rw [if_neg (by simp), if_pos (by simp)]
    simp only [List.getD_cons_zero, Nat.zero_sub]
    rw [vsub_self, vdiv_replicate_zero]

theorem getAb_eq (demos : List (List (List ℚ))) (h : ∀ d ∈ demos, d ≠ []) :
    getAb demos = some
      (demos.map (fun x => List.replicate x.length [frameA, frameA]),
       demos.map (fun x => List.replicate x.length
         [x.getD 0 [], x.getD (x.length - 1) []]),
       (demos.map (fun x => List.replicate x.length [frameA, frameA])).map
         (fun perT => perT.map (fun frames => frames.map
           (fun fr => kronLM (eyeL ((demos.getD 0 []).getD 0 []).length) fr))),
       (demos.map (fun x => List.replicate x.length
         [x.getD 0 [], x.getD (x.length - 1) []])).map
         (fun perT => perT.map (fun frames => frames.map
           (fun pose => pose ++ List.replicate pose.length (0 : ℚ))))) := by
  have hB : mapOpt (fun x => do
      let a ← pyGet x (0 : ℤ)
      let b ← pyGet x (-1 : ℤ)
      pure (List.replicate x.length [a, b])) demos =
    some (demos.map (fun x => List.replicate x.length
      [x.getD 0 [], x.getD (x.length - 1) []])) := by
    apply mapOpt_eq_some_map
    intro x hx
    have hne := h x hx
    have hpos : 0 < x.length := List.length_pos.mpr hne
    rw [show ((0 : ℤ)) = ((0 : ℕ) : ℤ) from rfl, pyGet_ofNat,
      get?_eq_some_getD x 0 hpos [], pyGet_neg_one x hne,
      get?_eq_some_getD x (x.length - 1) (by omega) []]
    rfl
  unfold getAb
  rw [hB]
  rfl

theorem zipWith_getD (f : α → β → γ) (as : List α) (bs : List β) (i : ℕ)
    (hia : i < as.length) (hib : i < bs.length) (da : α) (db : β) (dc : γ) :
    (List.zipWith f as bs).getD i dc = f (as.getD i da) (bs.getD i db) := by
  induction as generalizing bs i with
  | nil => simp at hia
  | cons a as ih =>
    cases bs with
    | nil => simp at hib
    | cons b bs =>
      cases i with
      | zero => rfl
      | succ i =>
        simp only [List.zipWith_cons_cons, List.getD_cons_succ]
        exact ih bs i (by simpa using hia) (by simpa using hib)

theorem zipWith3_getD (f : α → β → γ → δ) (as : List α) (bs : List β)
    (cs : List γ) (i : ℕ) (hia : i < as.length) (hib : i < bs.length)
    (hic : i < cs.length) (da : α) (db : β) (dc : γ) (dd : δ) :
    (zipWith3 f as bs cs).getD i dd = f (as.getD i da) (bs.getD i db) (cs.getD i dc) := by
  induction as generalizing bs cs i with
  | nil => simp at hia
  | cons a as ih =>
    cases bs with
    | nil => simp at hib
    | cons b bs =>
      cases cs with
      | nil => simp at hic
      | cons c cs =>
        cases i with
        | zero => rfl
        | succ i =>
          simp only [zipWith3, List.getD_cons_succ]
          exact ih bs cs i (by simpa using hia) (by simpa using hib)
            (by simpa using hic)

theorem zipWith3_length (f : α → β → γ → δ) (as : List α) (bs : List β)
    (cs : List γ) :
    (zipWith3 f as bs cs).length = min as.length (min bs.length cs.length) := by
  induction as generalizing bs cs with
  | nil => simp [zipWith3]
  | cons a as ih =>
    cases bs with
    | nil => simp [zipWith3]
    | cons b bs =>
      cases cs with
      | nil => simp [zipWith3]
      | cons c cs =>
        simp only [zipWith3, List.length_cons, ih]
        omega

theorem matTvec_length (A : List (List ℚ)) (v : List ℚ) :
    (matTvec A v).length = (A.headD []).length := by
  simp [matTvec]

theorem kron_row_length (mrow nrow : List ℚ) :
    ((mrow.map (fun a => nrow.map (fun y => a * y))).flatten).length =
      mrow.length * nrow.length := by
  induction mrow with
  | nil => simp
  | cons a mrow ih =>
    simp only [List.map_cons, List.flatten_cons, List.length_append,
      List.length_map, List.length_cons, ih]
    ring

theorem kronLM_head_length_cons (r0 : List ℚ) (rest : List (List ℚ))
    (n0 : List ℚ) (nrest : List (List ℚ)) :
    ((kronLM (r0 :: rest) (n0 :: nrest)).headD []).length =
      r0.length * n0.length := by
  simp only [kronLM, List.map_cons, List.flatten_cons, List.cons_append,
    List.headD_cons]
  exact kron_row_length r0 n0

theorem kronLM_head_length (D : ℕ) :
    ((kronLM (eyeL D) frameA).headD []).length = D * 2 := by
  cases D with
  | zero => rfl
  | succ d =>
    rw [show eyeL (d + 1) =
        (fun i => (List.range (d + 1)).map (fun j => if i = j then (1 : ℚ) else 0)) 0 ::
          ((List.range d).map Nat.succ).map
            (fun i => (List.range (d + 1)).map (fun j => if i = j then (1 : ℚ) else 0))
        by rw [eyeL, List.range_succ_eq_map, List.map_cons],
      show frameA = [(1 : ℚ), 0] :: [[(0 : ℚ), -1]] from rfl,
      kronLM_head_length_cons]
    simp

theorem flatten_pair_length (a b : List ℚ) :
    (List.flatten [a, b]).length = a.length + b.length := by
  simp

theorem matInv_matInv [Fintype m] [DecidableEq m] (X : Matrix m m ℚ)
    (h : IsUnit X.det) : matInv (matInv X) = X := by
  rw [matInv_eq_inv, matInv_eq_inv]
  exact Matrix.nonsing_inv_nonsing_inv X h

/-- C1: for every mixture component `k`, the component fused by `poe`
satisfies the Gaussian product identity: its precision (inverse covariance)
is the sum over the two frames of the transformed per-frame precisions, and
its mean is the fused covariance applied to the sum of (per-frame precision
times per-frame mean), where each per-frame marginal was first mapped by
`mean' = A·mean + b`, `covariance' = A·covariance·Aᵀ` with that frame's
transform.  The hypothesis states that the summed precision matrix is
invertible (the non-degeneracy requirement of spec 4.3). -/
theorem c1_poe_product_identity (K s : ℕ) (model : Fin K → Gauss (s + s))
    (Axdx : ℕ → Fin 2 → Matrix (Fin s) (Fin s) ℚ)
    (bxdx : ℕ → Fin 2 → Fin s → ℚ) (k : Fin K)
    (hdet : IsUnit ((matInv (lintrans (Axdx 0 0) (bxdx 0 0) (margLow (model k))).sigma +
      matInv (lintrans (Axdx 0 1) (bxdx 0 1) (margHigh (model k))).sigma).det)) :
    matInv ((poe model Axdx bxdx k).sigma) =
      matInv (lintrans (Axdx 0 0) (bxdx 0 0) (margLow (model k))).sigma +
        matInv (lintrans (Axdx 0 1) (bxdx 0 1) (margHigh (model k))).sigma ∧
    (poe model Axdx bxdx k).mu =
      ((poe model Axdx bxdx k).sigma).mulVec
        ((matInv (lintrans (Axdx 0 0) (bxdx 0 0) (margLow (model k))).sigma).mulVec
            (lintrans (Axdx 0 0) (bxdx 0 0) (margLow (model k))).mu +
          (matInv (lintrans (Axdx 0 1) (bxdx 0 1) (margHigh (model k))).sigma).mulVec
            (lintrans (Axdx 0 1) (bxdx 0 1) (margHigh (model k))).mu) :=
  ⟨matInv_matInv _ hdet, rfl⟩

/-- Witness for C1 at the concrete one-component, one-dimensional model
with identity covariance and identity frame transforms. -/
theorem c1_witness :
    IsUnit ((matInv (lintrans (wA 0 0) (wb 0 0) (margLow (wModel 0))).sigma +
      matInv (lintrans (wA 0 1) (wb 0 1) (margHigh (wModel 0))).sigma).det) ∧
    (matInv ((poe wModel wA wb 0).sigma) =
      matInv (lintrans (wA 0 0) (wb 0 0) (margLow (wModel 0))).sigma +
        matInv (lintrans (wA 0 1) (wb 0 1) (margHigh (wModel 0))).sigma ∧
    (poe wModel wA wb 0).mu =
      ((poe wModel wA wb 0).sigma).mulVec
        ((matInv (lintrans (wA 0 0) (wb 0 0) (margLow (wModel 0))).sigma).mulVec
            (lintrans (wA 0 0) (wb 0 0) (margLow (wModel 0))).mu +
          (matInv (lintrans (wA 0 1) (wb 0 1) (margHigh (wModel 0))).sigma).mulVec
            (lintrans (wA 0 1) (wb 0 1) (margHigh (wModel 0))).mu)) := by
  have hu : IsUnit ((matInv (lintrans (wA 0 0) (wb 0 0) (margLow (wModel 0))).sigma +
      matInv (lintrans (wA 0 1) (wb 0 1) (margHigh (wModel 0))).sigma).det) := by
    rw [isUnit_iff_ne_zero]
    simp [Matrix.det_fin_one, matInv, Matrix.adjugate_fin_one, lintrans, margLow,
      margHigh, wModel, wA, wb, Matrix.one_apply, Matrix.mul_apply,
      Matrix.transpose, Fin.sum_univ_succ, Matrix.of_apply]
  exact ⟨hu, c1_poe_product_identity 1 1 wModel wA wb 0 hu⟩

theorem getRelatedMatrix_eq (demos : List (List (List ℚ)))
    (h : ∀ d ∈ demos, d ≠ []) :
    getRelatedMatrix demos = some
      (List.zipWith (fun x dx => List.zipWith (fun p v => p ++ v) x dx) demos
        (demos.map (fun x => (List.range x.length).map (dxFormula x))),
       (demos.map (fun x => List.replicate x.length [frameA, frameA])).map
         (fun perT => perT.map (fun frames => frames.map
           (fun fr => kronLM (eyeL ((demos.getD 0 []).getD 0 []).length) fr))),
       (demos.map (fun x => List.replicate x.length
         [x.getD 0 [], x.getD (x.length - 1) []])).map
         (fun perT => perT.map (fun frames => frames.map
           (fun pose => pose ++ List.replicate pose.length (0 : ℚ)))),
       zipWith3 (fun xdx Axdx bxdx =>
         zipWith3 (fun xt At bt =>
           List.zipWith (fun A b => matTvec A (vsub xt b)) At bt) xdx Axdx bxdx)
         (List.zipWith (fun x dx => List.zipWith (fun p v => p ++ v) x dx) demos
           (demos.map (fun x => (List.range x.length).map (dxFormula x))))
         ((demos.map (fun x => List.replicate x.length [frameA, frameA])).map
           (fun perT => perT.map (fun frames => frames.map
             (fun fr => kronLM (eyeL ((demos.getD 0 []).getD 0 []).length) fr))))
         ((demos.map (fun x => List.replicate x.length
           [x.getD 0 [], x.getD (x.length - 1) []])).map
           (fun perT => perT.map (fun frames => frames.map
             (fun pose => pose ++ List.replicate pose.length (0 : ℚ))))),
       (zipWith3 (fun xdx Axdx bxdx =>
         zipWith3 (fun xt At bt =>
           List.zipWith (fun A b => matTvec A (vsub xt b)) At bt) xdx Axdx bxdx)
         (List.zipWith (fun x dx => List.zipWith (fun p v => p ++ v) x dx) demos
           (demos.map (fun x => (List.range x.length).map (dxFormula x))))
         ((demos.map (fun x => List.replicate x.length [frameA, frameA])).map
           (fun perT => perT.map (fun frames => frames.map
             (fun fr => kronLM (eyeL ((demos.getD 0 []).getD 0 []).length) fr))))
         ((demos.map (fun x => List.replicate x.length
           [x.getD 0 [], x.getD (x.length - 1) []])).map
           (fun perT => perT.map (fun frames => frames.map
             (fun pose => pose ++ List.replicate pose.length (0 : ℚ)))))).map
         (fun perDemo => perDemo.map List.flatten)) := by
  unfold getRelatedMatrix
  rw [getDx_eq, getAb_eq demos h]
  rfl

/-- C2: with the two task frames of `get_A_b` (`P = 2`) and position
dimension `D` (the length of the reference point `demos_x[0][0]` used by the
code), every multi-frame observation row of `demos_xdx_augm` produced by
`get_related_matrix` has dimension `2·D·P = 2·D·2`; the augmented offsets
sliced by `poe` have length `2·D_i`, and the fused model returned by `poe`
on a `(s + s)`-dimensional model has components of dimension `s` (the
single-frame augmented state dimension). -/
theorem c2_augmented_dimensions (demos : List (List (List ℚ)))
    (h : ∀ d ∈ demos, d ≠ []) :
    ∃ xdx Axdx bxdx xdxF augm,
      getRelatedMatrix demos = some (xdx, Axdx, bxdx, xdxF, augm) ∧
      (∀ i t, i < demos.length → t < (demos.getD i []).length →
        ((augm.getD i []).getD t []).length =
          2 * ((demos.getD 0 []).getD 0 []).length * 2) ∧
      (∀ i, i < demos.length →
        (((bxdx.getD i []).getD 0 []).getD 0 []).length =
          2 * ((demos.getD i []).getD 0 []).length) ∧
      (∀ (Kk ss : ℕ) (model : Fin Kk → Gauss (ss + ss))
        (Axf : ℕ → Fin 2 → Matrix (Fin ss) (Fin ss) ℚ)
        (bxf : ℕ → Fin 2 → Fin ss → ℚ) (k : Fin Kk),
        (poe model Axf bxf k).dim = ss) := by
  refine ⟨_, _, _, _, _, getRelatedMatrix_eq demos h, ?_, ?_, ?_⟩
  · intro i t hi ht
    have hdxi : ((demos.map (fun x => (List.range x.length).map (dxFormula x))).getD
        i []) = (List.range (demos.getD i []).length).map (dxFormula (demos.getD i [])) :=
      getD_map_of_lt _ demos i hi _ []
    have hxdxi : ((List.zipWith (fun x dx => List.zipWith (fun p v => p ++ v) x dx)
        demos (demos.map (fun x => (List.range x.length).map (dxFormula x)))).getD
          i []) = List.zipWith (fun p v => p ++ v) (demos.getD i [])
            ((List.range (demos.getD i []).length).map (dxFormula (demos.getD i []))) := by
      rw [zipWith_getD _ demos _ i hi (by rw [List.length_map]; exact hi) [] [] [],
        hdxi]
    have hAxi : (((demos.map (fun x => List.replicate x.length [frameA, frameA])).map
        (fun perT => perT.map (fun frames => frames.map
          (fun fr => kronLM (eyeL ((demos.getD 0 []).getD 0 []).length) fr)))).getD
            i []) = List.replicate (demos.getD i []).length
          [kronLM (eyeL ((demos.getD 0 []).getD 0 []).length) frameA,
           kronLM (eyeL ((demos.getD 0 []).getD 0 []).length) frameA] := by
      rw [getD_map_of_lt _ _ i (by rw [List.length_map]; exact hi) _ [],
        getD_map_of_lt _ demos i hi _ [], List.map_replicate]
      rfl
    have hbxi : (((demos.map (fun x => List.replicate x.length
        [x.getD 0 [], x.getD (x.length - 1) []])).map
        (fun perT => perT.map (fun frames => frames.map
          (fun pose => pose ++ List.replicate pose.length (0 : ℚ))))).getD i []) =
        List.replicate (demos.getD i []).length
          [(demos.getD i []).getD 0 [] ++
             List.replicate ((demos.getD i []).getD 0 []).length (0 : ℚ),
           (demos.getD i []).getD ((demos.getD i []).length - 1) [] ++
             List.replicate
               ((demos.getD i []).getD ((demos.getD i []).length - 1) []).length
               (0 : ℚ)] := by
      rw [getD_map_of_lt _ _ i (by rw [List.length_map]; exact hi) _ [],
        getD_map_of_lt _ demos i hi _ [], List.map_replicate]
      rfl
    have hFi : ((zipWith3 (fun xdx Axdx bxdx =>
        zipWith3 (fun xt At bt =>
          List.zipWith (fun A b => matTvec A (vsub xt b)) At bt) xdx Axdx bxdx)
        (List.zipWith (fun x dx => List.zipWith (fun p v => p ++ v) x dx) demos
          (demos.map (fun x => (List.range x.length).map (dxFormula x))))
        ((demos.map (fun x => List.replicate x.length [frameA, frameA])).map
          (fun perT => perT.map (fun frames => frames.map
            (fun fr => kronLM (eyeL ((demos.getD 0 []).getD 0 []).length) fr))))
        ((demos.map (fun x => List.replicate x.length
          [x.getD 0 [], x.getD (x.length - 1) []])).map
          (fun perT => perT.map (fun frames => frames.map
            (fun pose => pose ++ List.replicate pose.length (0 : ℚ)))))).getD i []) =
        zipWith3 (fun xt At bt =>
          List.zipWith (fun A b => matTvec A (vsub xt b)) At bt)
          (List.zipWith (fun p v => p ++ v) (demos.getD i [])
            ((List.range (demos.getD i []).length).map (dxFormula (demos.getD i []))))
          (List.replicate (demos.getD i []).length
            [kronLM (eyeL ((demos.getD 0 []).getD 0 []).length) frameA,
             kronLM (eyeL ((demos.getD 0 []).getD 0 []).length) frameA])
          (List.replicate (demos.getD i []).length
            [(demos.getD i []).getD 0 [] ++
               List.replicate ((demos.getD i []).getD 0 []).length (0 : ℚ),
             (demos.getD i []).getD ((demos.getD i []).length - 1) [] ++
               List.replicate
                 ((demos.getD i []).getD ((demos.getD i []).length - 1) []).length
                 (0 : ℚ)]) := by
      rw [zipWith3_getD _ _ _ _ i
          (by rw [List.length_zipWith, List.length_map]; omega)
          (by rw [List.length_map, List.length_map]; exact hi)
          (by rw [List.length_map, List.length_map]; exact hi) [] [] [] [],
        hxdxi, hAxi, hbxi]
    rw [getD_map_of_lt _ _ i (by
        simp only [zipWith3_length, List.length_zipWith, List.length_map,
          List.length_range, List.length_replicate]
        omega) _ [], hFi,
      getD_map_of_lt _ _ t (by
        simp only [zipWith3_length, List.length_zipWith, List.length_map,
          List.length_range, List.length_replicate]
        omega) _ [],
      zipWith3_getD _ _ _ _ t
        (by rw [List.length_zipWith, List.length_map, List.length_range]; omega)
        (by rw [List.length_replicate]; exact ht)
        (by rw [List.length_replicate]; exact ht) [] [] [] [],
      getD_replicate_of_lt _ _ t ht [], getD_replicate_of_lt _ _ t ht []]
    simp only [List.zipWith_cons_cons, List.zipWith_nil_right, List.flatten]
    rw [List.length_append, List.length_append, matTvec_length, matTvec_length,
      kronLM_head_length]
    simp only [List.length_nil]
    omega
  · intro i hi
    have hmem : demos.getD i [] ∈ demos := by
      rw [List.getD_eq_getElem?_getD, List.getElem?_eq_getElem hi]
      exact List.getElem_mem hi
    have hpos : 0 < (demos.getD i []).length := List.length_pos.mpr (h _ hmem)
    rw [getD_map_of_lt _ _ i (by rw [List.length_map]; exact hi) _ [],
      getD_map_of_lt _ demos i hi _ [], List.map_replicate,
      getD_replicate_of_lt _ _ 0 hpos []]
    simp only [List.map_cons, List.getD_cons_zero]
    rw [List.length_append, List.length_replicate]
    omega
  · intro Kk ss model Axf bxf k
    rfl

/-- Witness for C2 at the concrete demonstration set `wDemos`. -/
theorem c2_witness :
    (∀ d ∈ wDemos, d ≠ []) ∧
    (∃ xdx Axdx bxdx xdxF augm,
      getRelatedMatrix wDemos = some (xdx, Axdx, bxdx, xdxF, augm) ∧
      (∀ i t, i < wDemos.length → t < (wDemos.getD i []).length →
        ((augm.getD i []).getD t []).length =
          2 * ((wDemos.getD 0 []).getD 0 []).length * 2) ∧
      (∀ i, i < wDemos.length →
        (((bxdx.getD i []).getD 0 []).getD 0 []).length =
          2 * ((wDemos.getD i []).getD 0 []).length) ∧
      (∀ (Kk ss : ℕ) (model : Fin Kk → Gauss (ss + ss))
        (Axf : ℕ → Fin 2 → Matrix (Fin ss) (Fin ss) ℚ)
        (bxf : ℕ → Fin 2 → Fin ss → ℚ) (k : Fin Kk),
        (poe model Axf bxf k).dim = ss)) :=
  ⟨by decide, c2_augmented_dimensions wDemos (by decide)⟩

/-- C5: the per-timestep frame transforms built by `get_A_b` are constant
over the trajectory — at every timestep the augmented linear part is the
same fixed pair `kron(I_D, [[1,0],[0,-1]])` and the augmented offset is the
same pair (start pose for the first frame, end pose for the second frame,
each with a zero velocity block) — and `poe` reads only the transform of
the first timestep: two per-timestep transform arrays that agree at
timestep 0 give identical fused models. -/
theorem c5_constant_transforms (demos : List (List (List ℚ)))
    (h : ∀ d ∈ demos, d ≠ []) (K s : ℕ) (model : Fin K → Gauss (s + s))
    (Ax Ax' : ℕ → Fin 2 → Matrix (Fin s) (Fin s) ℚ)
    (bx bx' : ℕ → Fin 2 → Fin s → ℚ)
    (hA : Ax 0 = Ax' 0) (hb : bx 0 = bx' 0) :
    (∃ dA dB dAxdx dBxdx, getAb demos = some (dA, dB, dAxdx, dBxdx) ∧
      (∀ i t, i < demos.length → t < (demos.getD i []).length →
        (dAxdx.getD i []).getD t [] =
          [kronLM (eyeL ((demos.getD 0 []).getD 0 []).length) frameA,
           kronLM (eyeL ((demos.getD 0 []).getD 0 []).length) frameA] ∧
        (dBxdx.getD i []).getD t [] =
          [(demos.getD i []).getD 0 [] ++
             List.replicate ((demos.getD i []).getD 0 []).length (0 : ℚ),
           (demos.getD i []).getD ((demos.getD i []).length - 1) [] ++
             List.replicate
               ((demos.getD i []).getD ((demos.getD i []).length - 1) []).length
               (0 : ℚ)])) ∧
    poe model Ax bx = poe model Ax' bx' := by
  constructor
  · refine ⟨_, _, _, _, getAb_eq demos h, ?_⟩
    intro i t hi ht
    constructor
    · rw [getD_map_of_lt
          (fun perT => perT.map (fun frames => frames.map
            (fun fr => kronLM (eyeL ((demos.getD 0 []).getD 0 []).length) fr)))
          (demos.map (fun x => List.replicate x.length [frameA, frameA])) i
          (by rw [List.length_map]; exact hi) _ [],
        getD_map_of_lt (fun x => List.replicate x.length [frameA, frameA])
          demos i hi _ [], List.map_replicate,
        getD_replicate_of_lt _ _ t ht []]
      rfl
    · rw [getD_map_of_lt
          (fun perT => perT.map (fun frames => frames.map
            (fun pose => pose ++ List.replicate pose.length (0 : ℚ))))
          (demos.map (fun x => List.replicate x.length
            [x.getD 0 [], x.getD (x.length - 1) []])) i
          (by rw [List.length_map]; exact hi) _ [],
        getD_map_of_lt (fun x => List.replicate x.length
          [x.getD 0 [], x.getD (x.length - 1) []]) demos i hi _ [],
        List.map_replicate, getD_replicate_of_lt _ _ t ht []]
      rfl
  · funext k
    simp only [poe]
    rw [hA, hb]

/-- Witness for C5 at the concrete demonstration set `[[[1], [2]]]` and the
concrete identity transform pair. -/
theorem c5_witness :
    (∃ dA dB dAxdx dBxdx,
      getAb [[[(1 : ℚ)], [2]]] = some (dA, dB, dAxdx, dBxdx) ∧
      (∀ i t, i < ([[[(1 : ℚ)], [2]]] : List (List (List ℚ))).length →
        t < (([[[(1 : ℚ)], [2]]] : List (List (List ℚ))).getD i []).length →
        (dAxdx.getD i []).getD t [] =
          [kronLM (eyeL ((([[[(1 : ℚ)], [2]]] : List (List (List ℚ))).getD 0
            []).getD 0 []).length) frameA,
           kronLM (eyeL ((([[[(1 : ℚ)], [2]]] : List (List (List ℚ))).getD 0
            []).getD 0 []).length) frameA] ∧
        (dBxdx.getD i []).getD t [] =
          [(([[[(1 : ℚ)], [2]]] : List (List (List ℚ))).getD i []).getD 0 [] ++
             List.replicate ((([[[(1 : ℚ)], [2]]] :
               List (List (List ℚ))).getD i []).getD 0 []).length (0 : ℚ),
           (([[[(1 : ℚ)], [2]]] : List (List (List ℚ))).getD i []).getD
               ((([[[(1 : ℚ)], [2]]] :
                 List (List (List ℚ))).getD i []).length - 1) [] ++
             List.replicate ((([[[(1 : ℚ)], [2]]] :
               List (List (List ℚ))).getD i []).getD
                 ((([[[(1 : ℚ)], [2]]] :
                   List (List (List ℚ))).getD i []).length - 1) []).length
               (0 : ℚ)])) ∧
    poe wModel wA wb = poe wModel wA wb :=
  c5_constant_transforms [[[(1 : ℚ)], [2]]] (by decide) 1 1 wModel wA wA wb wb
    rfl rfl

/-- C7: if the configuration's basis name is not one of the four recognized
names, `define_control_primitive` fails at the dictionary lookup (returning
no result, before any basis matrix is built); for every recognized name it
succeeds in constructing `PSI` together with `phi`. -/
theorem c7_basis_name_dispatch (N C p : ℕ) :
    (∀ name : String,
      name ∉ (["PIECEWEISE", "RBF", "BERNSTEIN", "FOURIER"] : List String) →
      defineControlPrimitive name N C p = none) ∧
    (∀ name ∈ (["PIECEWEISE", "RBF", "BERNSTEIN", "FOURIER"] : List String),
      ∃ PSI phi, defineControlPrimitive name N C p = some (PSI, phi)) := by
  constructor
  · intro name h
    simp only [List.mem_cons, List.not_mem_nil, or_false] at h
    push_neg at h
    obtain ⟨h1, h2, h3, h4⟩ := h
    simp [defineControlPrimitive, basisFunctions, h1, h2, h3, h4]
  · intro name hname
    fin_cases hname <;> exact ⟨_, _, rfl⟩

/-- Witness for C7: the unrecognized name `"SPLINE"` fails, the recognized
name `"RBF"` succeeds. -/
theorem c7_witness :
    defineControlPrimitive "SPLINE" 3 2 2 = none ∧
    (∃ PSI phi, defineControlPrimitive "RBF" 3 2 2 = some (PSI, phi)) :=
  ⟨(c7_basis_name_dispatch 3 2 2).1 "SPLINE" (by decide),
   (c7_basis_name_dispatch 3 2 2).2 "RBF" (by decide)⟩

/-- Counterexample to C8 as stated: invoking `uni_cp` with the
configuration `wParam` (holding the keys `nbVarPos` and `nb_var` that the
call reads before its write, but no key `nbPoints`) and the two-row data
`[[0], [1]]` completes without raising, and the resulting mapping differs
from the one supplied at the key `nbPoints` — `param['nbPoints'] =
len(via_point_pose)` (`lqt_cp.py` line 65) writes the key, so the mapping
does not hold exactly the same keys and values afterwards. -/
theorem c8_counterexample :
    uniCpParamAfter wParam [[0], [1]] =
      some (fun k => if k = "nbPoints"
        then some (((([[(0 : ℚ)], [1]] : List (List ℚ)).drop 1).length : ℚ))
        else wParam k) ∧
    (fun k => if k = "nbPoints"
        then some (((([[(0 : ℚ)], [1]] : List (List ℚ)).drop 1).length : ℚ))
        else wParam k) "nbPoints" ≠ wParam "nbPoints" := by
  constructor
  · rfl
  · simp [wParam]

/-- C8 (amended): whenever the reads preceding the write succeed — the
configuration holds the keys `nbVarPos` and `nb_var` and the data is
nonempty — an invocation of `uni_cp` completes its configuration effect and
mutates the caller-supplied mapping at exactly the key `nbPoints`, setting
it to the number of via-points `len(data[1:])`; every other key keeps the
value it had before the call.  (When one of those reads fails, the call
raises before the line-65 write and the mapping is unchanged.) -/
theorem c8_param_mutation (param : String → Option ℚ) (data : List (List ℚ))
    (h1 : param "nbVarPos" ≠ none) (h2 : param "nb_var" ≠ none)
    (h3 : data ≠ []) :
    ∃ after, uniCpParamAfter param data = some after ∧
      after "nbPoints" = some (((data.drop 1).length : ℚ)) ∧
      ∀ k, k ≠ "nbPoints" → after k = param k := by
  rcases hv : param "nbVarPos" with _ | a
  · exact absurd hv h1
  rcases hw : param "nb_var" with _ | b
  · exact absurd hw h2
  have hpos : 0 < data.length := List.length_pos.mpr h3
  have hd : pyGet data (0 : ℤ) = some (data.getD 0 []) := by
    rw [show ((0 : ℤ)) = ((0 : ℕ) : ℤ) from rfl, pyGet_ofNat,
      get?_eq_some_getD data 0 hpos []]
  refine ⟨fun k =>
    if k = "nbPoints" then some ((data.drop 1).length : ℚ) else param k,
    ?_, rfl, ?_⟩
  · unfold uniCpParamAfter
    rw [hv, hw, hd]
    rfl
  · intro k hk
    simp [hk]

/-- Witness for C8 (amended) at the configuration `wParam` and the data
`[[0], [1]]`. -/
theorem c8_witness :
    wParam "nbVarPos" ≠ none ∧ wParam "nb_var" ≠ none ∧
    ([[(0 : ℚ)], [1]] : List (List ℚ)) ≠ [] ∧
    (∃ after, uniCpParamAfter wParam [[0], [1]] = some after ∧
      after "nbPoints" =
        some (((([[(0 : ℚ)], [1]] : List (List ℚ)).drop 1).length : ℚ)) ∧
      ∀ k, k ≠ "nbPoints" → after k = wParam k) :=
  ⟨by decide, by decide, by decide,
   c8_param_mutation wParam [[0], [1]] (by decide) (by decide) (by decide)⟩

/-- C9: decoding is deterministic — the Viterbi decode and the `generate`
operation that wraps it are pure functions of the model scores, the
observation scores and the fused model: on equal inputs they produce the
identical state path and the identical output trajectory, with no hidden
randomness. -/
theorem c9_decode_deterministic (K T s : ℕ)
    (logInit logInit' : Fin (K + 1) → ℚ)
    (logTrans logTrans' : Matrix (Fin (K + 1)) (Fin (K + 1)) ℚ)
    (logEmit logEmit' : ℕ → Fin (K + 1) → ℚ)
    (prod prod' : Fin (K + 1) → Gauss s)
    (h1 : logInit = logInit') (h2 : logTrans = logTrans')
    (h3 : logEmit = logEmit') (h4 : prod = prod') :
    viterbi T logInit logTrans logEmit = viterbi T logInit' logTrans' logEmit' ∧
    generate T logInit logTrans logEmit prod =
      generate T logInit' logTrans' logEmit' prod' := by
  subst h1
  subst h2
  subst h3
  subst h4
  exact ⟨rfl, rfl⟩

/-- Witness for C9 at a concrete one-state model over two timesteps. -/
theorem c9_witness :
    viterbi 2 (fun _ : Fin 1 => (0 : ℚ)) 0 (fun _ _ => 0) =
      viterbi 2 (fun _ : Fin 1 => (0 : ℚ)) 0 (fun _ _ => 0) ∧
    generate 2 (fun _ : Fin 1 => (0 : ℚ)) 0 (fun _ _ => 0)
        (fun _ => (⟨fun _ => 0, 1⟩ : Gauss 1)) =
      generate 2 (fun _ : Fin 1 => (0 : ℚ)) 0 (fun _ _ => 0)
        (fun _ => (⟨fun _ => 0, 1⟩ : Gauss 1)) :=
  c9_decode_deterministic 0 2 1 (fun _ => 0) (fun _ => 0) 0 0
    (fun _ _ => 0) (fun _ _ => 0) (fun _ => ⟨fun _ => 0, 1⟩)
    (fun _ => ⟨fun _ => 0, 1⟩) rfl rfl rfl rfl

/-- Witness for C10 at the concrete input `[[[2, 3]], [[1], [5]]]`. -/
theorem c10_witness :
    (∀ d ∈ [[[(2 : ℚ), 3]], [[(1 : ℚ)], [5]]], d ≠ []) ∧
    (∃ rs, getDx [[[(2 : ℚ), 3]], [[(1 : ℚ)], [5]]] = some rs ∧
      rs.length = ([[[(2 : ℚ), 3]], [[(1 : ℚ)], [5]]] :
        List (List (List ℚ))).length ∧
      (∀ i, i < ([[[(2 : ℚ), 3]], [[(1 : ℚ)], [5]]] :
          List (List (List ℚ))).length →
        (rs.getD i []).length =
          (([[[(2 : ℚ), 3]], [[(1 : ℚ)], [5]]] :
            List (List (List ℚ))).getD i []).length) ∧
      (∀ i v, i < ([[[(2 : ℚ), 3]], [[(1 : ℚ)], [5]]] :
          List (List (List ℚ))).length →
        ([[[(2 : ℚ), 3]], [[(1 : ℚ)], [5]]] :
          List (List (List ℚ))).getD i [] = [v] →
        rs.getD i [] = [List.replicate v.length 0])) :=
  ⟨by decide, c10_getDx_total [[[(2 : ℚ), 3]], [[(1 : ℚ)], [5]]] (by decide)⟩

end Rofunc
